import Mathlib

/-!
Shallow embedding of the renderer-side UI layer of the etcher disk-flashing
application: the source-selector (recent-URL cache, image selection, protocol
checks, metadata shaping), the target-selector (drive selection deltas) and the
settings dialog (boolean toggles).  Definitions are translated from the
TypeScript source; external collaborators (the etcher SDK, the JSON runtime,
node path helpers, lodash) are either modelled faithfully or taken as
parameters of the definitions that call them.
-/

set_option autoImplicit false

namespace Etcher

/-! ### A model of untyped JavaScript values

`normalizeRecentUrlImages` receives an `any` value (the result of
`JSON.parse`), so its input is modelled as a JSON-like value tree. -/

inductive JSVal where
  | str (s : String)
  | num (n : Int)
  | bool (b : Bool)
  | null
  | arr (xs : List JSVal)
  | obj (fields : List (String × JSVal))

/-- Models the lodash predicate `_.isString` combined with extraction: a string
value yields the string, any other value yields nothing. -/
def jsAsString : JSVal → Option String
  | JSVal.str s => some s
  | _ => none

/-- Models the guard `if (!Array.isArray(urls)) { urls = []; }`: the element
list of an array value, and the empty list for every non-array value. -/
def arrayValues : JSVal → List JSVal
  | JSVal.arr xs => xs
  | _ => []

/-- A TypeScript `string[]` passed where an `any` is expected, as in
`normalizeRecentUrlImages([...recentImages, imageURL])`. -/
def ofStrings (l : List String) : JSVal :=
  JSVal.arr (l.map JSVal.str)

/-- Models lodash `_.uniq`, which keeps the first occurrence of each element;
`seen` accumulates the elements already emitted. -/
def uniqAux (seen : List String) : List String → List String
  | [] => []
  | x :: xs => if x ∈ seen then uniqAux seen xs else x :: uniqAux (x :: seen) xs

/-- Lodash `_.uniq` on a list of strings. -/
def lodashUniq (l : List String) : List String :=
  uniqAux [] l

/-- Models lodash `_.takeRight(array, n)`: the slice of the last `n` elements. -/
def takeRight (n : Nat) (l : List String) : List String :=
  l.drop (l.length - n)

/-- Function `normalizeRecentUrlImages(urls: any): string[]` from the source selector:
replace a non-array by `[]`, keep the string elements, reject the empty ones,
deduplicate keeping first occurrences, and take the last 5. -/
def normalizeRecentUrlImages (urls : JSVal) : List String :=
  takeRight 5 (lodashUniq (((arrayValues urls).filterMap jsAsString).filter
    (fun s => !(s == ""))))

/-- Function `getRecentUrlImages` reads the `recentUrlImages` key from localStorage
(`none` when absent), substitutes the literal string `[]` for an absent or
falsy value, parses it with the runtime JSON parser (a parameter here, `none`
modelling a thrown parse error, which the source catches leaving `urls = []`)
and normalizes the result. -/
def recentUrlImagesRaw (stored : Option String) : String :=
  match stored with
  | none => "[]"
  | some s => if s == "" then "[]" else s

def getRecentUrlImages (jsonParse : String → Option JSVal)
    (stored : Option String) : List String :=
  match jsonParse (recentUrlImagesRaw stored) with
  | some urls => normalizeRecentUrlImages urls
  | none => normalizeRecentUrlImages (JSVal.arr [])

/-- Function `setRecentUrlImages(urls: string[])` persists
`JSON.stringify(normalizeRecentUrlImages(urls))`; the persisted list itself is
the model of the stored value. -/
def setRecentUrlImages (urls : List String) : List String :=
  normalizeRecentUrlImages (ofStrings urls)

/-- The `done` handler of `URLSelector` computes
`normalizeRecentUrlImages([...recentImages, imageURL])` before persisting it. -/
def urlSelectorDone (recentImages : List String) (imageURL : String) : List String :=
  normalizeRecentUrlImages (ofStrings (recentImages ++ [imageURL]))

/-! ### Lemmas about the normalization chain -/

theorem mem_of_mem_uniqAux {x : String} :
    ∀ {seen l : List String}, x ∈ uniqAux seen l → x ∈ l := by
  intro seen l
  induction l generalizing seen with
  | nil => intro h; simp [uniqAux] at h
  | cons y ys ih =>
    intro h
    by_cases hy : y ∈ seen
    · simp only [uniqAux, if_pos hy] at h
      exact List.mem_cons_of_mem _ (ih h)
    · simp only [uniqAux, if_neg hy, List.mem_cons] at h
      rcases h with h | h
      · exact h ▸ List.mem_cons_self _ _
      · exact List.mem_cons_of_mem _ (ih h)

theorem not_mem_seen_of_mem_uniqAux {x : String} :
    ∀ {seen l : List String}, x ∈ uniqAux seen l → x ∉ seen := by
  intro seen l
  induction l generalizing seen with
  | nil => intro h; simp [uniqAux] at h
  | cons y ys ih =>
    intro h
    by_cases hy : y ∈ seen
    · simp only [uniqAux, if_pos hy] at h
      exact ih h
    · simp only [uniqAux, if_neg hy, List.mem_cons] at h
      rcases h with h | h
      · exact h ▸ hy
      · intro hx
        exact (ih h) (List.mem_cons_of_mem _ hx)

theorem nodup_uniqAux : ∀ (seen l : List String), (uniqAux seen l).Nodup := by
  intro seen l
  induction l generalizing seen with
  | nil => simp [uniqAux]
  | cons y ys ih =>
    by_cases hy : y ∈ seen
    · simpa [uniqAux, if_pos hy] using ih seen
    · simp only [uniqAux, if_neg hy, List.nodup_cons]
      refine ⟨fun hmem => ?_, ih (y :: seen)⟩
      exact (not_mem_seen_of_mem_uniqAux hmem) (List.mem_cons_self _ _)

theorem uniqAux_eq_self : ∀ {seen l : List String}, l.Nodup →
    (∀ x ∈ l, x ∉ seen) → uniqAux seen l = l := by
  intro seen l
  induction l generalizing seen with
  | nil => intro _ _; rfl
  | cons y ys ih =>
    intro hnd hs
    have hy : y ∉ seen := hs y (List.mem_cons_self _ _)
    simp only [uniqAux, if_neg hy]
    congr 1
    refine ih (List.Nodup.of_cons hnd) ?_
    intro x hx
    simp only [List.mem_cons, not_or]
    refine ⟨fun hxy => ?_, hs x (List.mem_cons_of_mem _ hx)⟩
    exact (List.nodup_cons.mp hnd).1 (hxy ▸ hx)

theorem uniqAux_append_singleton {x : String} :
    ∀ {seen l : List String}, (x ∈ seen ∨ x ∈ l) →
      uniqAux seen (l ++ [x]) = uniqAux seen l := by
  intro seen l
  induction l generalizing seen with
  | nil =>
    intro h
    rcases h with h | h
    · simp [uniqAux, if_pos h]
    · simp at h
  | cons y ys ih =>
    intro h
    by_cases hy : y ∈ seen
    · simp only [List.cons_append, uniqAux, if_pos hy]
      refine ih ?_
      rcases h with h | h
      · exact Or.inl h
      · rcases List.mem_cons.mp h with h | h
        · exact Or.inl (h ▸ hy)
        · exact Or.inr h
    · simp only [List.cons_append, uniqAux, if_neg hy]
      congr 1
      refine ih ?_
      rcases h with h | h
      · exact Or.inl (List.mem_cons_of_mem _ h)
      · rcases List.mem_cons.mp h with h | h
        · exact Or.inl (h ▸ List.mem_cons_self _ _)
        · exact Or.inr h

theorem length_takeRight_le (n : Nat) (l : List String) :
    (takeRight n l).length ≤ n := by
  simp only [takeRight, List.length_drop]
  omega

theorem takeRight_eq_self {n : Nat} {l : List String} (h : l.length ≤ n) :
    takeRight n l = l := by
  simp only [takeRight, Nat.sub_eq_zero_of_le h, List.drop_zero]

theorem mem_of_mem_takeRight {n : Nat} {l : List String} {x : String}
    (h : x ∈ takeRight n l) : x ∈ l :=
  (List.drop_sublist _ _).subset h

theorem nodup_takeRight {n : Nat} {l : List String} (h : l.Nodup) :
    (takeRight n l).Nodup :=
  (List.drop_sublist _ _).nodup h

theorem normalizeRecentUrlImages_length_le (urls : JSVal) :
    (normalizeRecentUrlImages urls).length ≤ 5 :=
  length_takeRight_le 5 _

theorem normalizeRecentUrlImages_nodup (urls : JSVal) :
    (normalizeRecentUrlImages urls).Nodup :=
  nodup_takeRight (nodup_uniqAux [] _)

theorem normalizeRecentUrlImages_ne_empty {urls : JSVal} {s : String}
    (h : s ∈ normalizeRecentUrlImages urls) : s ≠ "" := by
  have h1 := mem_of_mem_uniqAux (mem_of_mem_takeRight h)
  have h2 := (List.mem_filter.mp h1).2
  simpa using h2

theorem filterMap_jsAsString_map_str (l : List String) :
    (l.map JSVal.str).filterMap jsAsString = l := by
  induction l with
  | nil => rfl
  | cons x xs ih => simp [jsAsString, List.filterMap_cons, ih]

theorem normalizeRecentUrlImages_ofStrings {l : List String}
    (hnd : l.Nodup) (hne : ∀ s ∈ l, s ≠ "") (hlen : l.length ≤ 5) :
    normalizeRecentUrlImages (ofStrings l) = l := by
  have harr : arrayValues (ofStrings l) = l.map JSVal.str := rfl
  have hfm : (l.map JSVal.str).filterMap jsAsString = l :=
    filterMap_jsAsString_map_str l
  have hfil : l.filter (fun s => !(s == "")) = l := by
    refine List.filter_eq_self.mpr ?_
    intro s hs
    simpa using hne s hs
  have huniq : lodashUniq l = l := by
    refine uniqAux_eq_self hnd ?_
    intro x _
    simp
  simp only [normalizeRecentUrlImages, harr, hfm, hfil, huniq]
  exact takeRight_eq_self hlen

/-! ### Claim theorems about the recent-URL cache -/

/-- C1: for every input value, `normalizeRecentUrlImages` returns at most 5
entries, each a non-empty string, with no duplicates, and the list persisted by
`setRecentUrlImages` satisfies the same bound. -/
theorem claimC1_normalizeRecentUrlImages_capped (urls : JSVal) (stored : List String) :
    (normalizeRecentUrlImages urls).length ≤ 5 ∧
    (normalizeRecentUrlImages urls).Nodup ∧
    ((normalizeRecentUrlImages urls).all (fun s => !(s == ""))) = true ∧
    (setRecentUrlImages stored).length ≤ 5 ∧
    (setRecentUrlImages stored).Nodup ∧
    ((setRecentUrlImages stored).all (fun s => !(s == ""))) = true := by
  refine ⟨normalizeRecentUrlImages_length_le urls,
    normalizeRecentUrlImages_nodup urls, ?_,
    normalizeRecentUrlImages_length_le (ofStrings stored),
    normalizeRecentUrlImages_nodup (ofStrings stored), ?_⟩
  · rw [List.all_eq_true]
    intro s hs
    simpa using normalizeRecentUrlImages_ne_empty hs
  · rw [List.all_eq_true]
    intro s hs
    simpa using normalizeRecentUrlImages_ne_empty hs

/-- C9: `normalizeRecentUrlImages` is idempotent: applied to its own output
(a `string[]` re-entering as an untyped array) it returns that output
unchanged. -/
theorem claimC9_normalizeRecentUrlImages_idempotent (urls : JSVal) :
    normalizeRecentUrlImages (ofStrings (normalizeRecentUrlImages urls)) =
      normalizeRecentUrlImages urls :=
  normalizeRecentUrlImages_ofStrings
    (normalizeRecentUrlImages_nodup urls)
    (fun _ hs => normalizeRecentUrlImages_ne_empty hs)
    (normalizeRecentUrlImages_length_le urls)

/-- C5: submitting a URL already present in the normalized recent list (the
`done` handler appends it and normalizes) keeps that URL in the resulting
capped list: it is not evicted by the cap. -/
theorem claimC5_recent_url_resubmit_kept (urls : JSVal) (url : String)
    (hmem : url ∈ normalizeRecentUrlImages urls) :
    url ∈ urlSelectorDone (normalizeRecentUrlImages urls) url := by
  set out := normalizeRecentUrlImages urls with hout
  have hnd : out.Nodup := normalizeRecentUrlImages_nodup urls
  have hne : ∀ s ∈ out, s ≠ "" := fun _ hs => normalizeRecentUrlImages_ne_empty hs
  have hlen : out.length ≤ 5 := normalizeRecentUrlImages_length_le urls
  have harr : arrayValues (ofStrings (out ++ [url])) = (out ++ [url]).map JSVal.str := rfl
  have hfm : ((out ++ [url]).map JSVal.str).filterMap jsAsString = out ++ [url] :=
    filterMap_jsAsString_map_str _
  have hfil : (out ++ [url]).filter (fun s => !(s == "")) = out ++ [url] := by
    refine List.filter_eq_self.mpr ?_
    intro s hs
    rcases List.mem_append.mp hs with hs | hs
    · simpa using hne s hs
    · have : s = url := by simpa using hs
      simpa [this] using hne url hmem
  have huniq : lodashUniq (out ++ [url]) = out := by
    rw [lodashUniq, uniqAux_append_singleton (Or.inr hmem)]
    exact uniqAux_eq_self hnd (fun x _ => by simp)
  have : urlSelectorDone out url = out := by
    simp only [urlSelectorDone, normalizeRecentUrlImages, harr, hfm, hfil, huniq]
    exact takeRight_eq_self hlen
  rw [this]
  exact hmem

/-- C5 witness: a URL already in a full 5-entry recent list survives
re-submission. -/
theorem claimC5_recent_url_resubmit_kept_witness :
    "a" ∈ urlSelectorDone
      (normalizeRecentUrlImages (ofStrings ["a", "b", "c", "d", "e"])) "a" :=
  claimC5_recent_url_resubmit_kept (ofStrings ["a", "b", "c", "d", "e"]) "a"
    (by decide)

/-- C8: `getRecentUrlImages` is total over every localStorage content and every
behavior of the JSON parser: the result always has at most 5 deduplicated
non-empty entries, and a parse failure (the thrown-and-caught branch) yields
the empty list. -/
theorem claimC8_getRecentUrlImages_total (jsonParse : String → Option JSVal)
    (stored : Option String) :
    (getRecentUrlImages jsonParse stored).length ≤ 5 ∧
    (getRecentUrlImages jsonParse stored).Nodup ∧
    ((getRecentUrlImages jsonParse stored).all (fun s => !(s == ""))) = true ∧
    (jsonParse (recentUrlImagesRaw stored) = none →
      getRecentUrlImages jsonParse stored = []) := by
  have hform : ∀ v : JSVal,
      (normalizeRecentUrlImages v).length ≤ 5 ∧
      (normalizeRecentUrlImages v).Nodup ∧
      ((normalizeRecentUrlImages v).all (fun s => !(s == ""))) = true := by
    intro v
    refine ⟨normalizeRecentUrlImages_length_le v,
      normalizeRecentUrlImages_nodup v, ?_⟩
    rw [List.all_eq_true]
    intro s hs
    simpa using normalizeRecentUrlImages_ne_empty hs
  have hcases : (∃ v, getRecentUrlImages jsonParse stored =
      normalizeRecentUrlImages v) := by
    unfold getRecentUrlImages
    cases jsonParse (recentUrlImagesRaw stored) with
    | none => exact ⟨JSVal.arr [], rfl⟩
    | some v => exact ⟨v, rfl⟩
  obtain ⟨v, hv⟩ := hcases
  refine ⟨hv ▸ (hform v).1, hv ▸ (hform v).2.1, hv ▸ (hform v).2.2, ?_⟩
  intro hnone
  unfold getRecentUrlImages
  rw [hnone]
  rfl

/-- C8 witness: a parser that rejects everything (a malformed stored value)
still yields a well-formed, empty result. -/
theorem claimC8_getRecentUrlImages_total_witness :
    (getRecentUrlImages (fun _ => none) (some "not json")).length ≤ 5 ∧
    getRecentUrlImages (fun _ => none) (some "not json") = [] := by
  have h := claimC8_getRecentUrlImages_total (fun _ => none) (some "not json")
  exact ⟨h.1, h.2.2.2 rfl⟩

/-! ### Target selector: `selectAllTargets` -/

/-- A drive as returned by the drivelist scanner; only the fields used by the
target selector are modelled. -/
structure DrivelistDrive where
  device : String
  description : String
  displayName : String
deriving DecidableEq

/-- Modelled from the spec: `selectDrive` lives in `models/selection-state`,
outside this excerpt; per the spec the store holds the selected targets, and
selecting adds the device to the selection (idempotently). -/
def selectDrive (selection : List String) (device : String) : List String :=
  if device ∈ selection then selection else selection ++ [device]

/-- Modelled from the spec: `deselectDrive` lives in `models/selection-state`,
outside this excerpt; deselecting removes the device from the selection. -/
def deselectDrive (selection : List String) (device : String) : List String :=
  selection.filter (fun d => d != device)

/-- Function `selectAllTargets(modalTargets)` from the target selector: compute the
drives selected in the store but absent from the modal result, deselect them,
then select every modal target.  The store selection is modelled as the list of
selected device identifiers; the initial selection is the device list of
`getSelectedDrives()`. -/
def selectAllTargets (selectedDrivesFromState : List DrivelistDrive)
    (modalTargets : List DrivelistDrive) : List String :=
  let selection := selectedDrivesFromState.map (fun d => d.device)
  let deselected := selectedDrivesFromState.filter
    (fun drive => !(modalTargets.any (fun modalTarget => modalTarget.device == drive.device)))
  let afterDeselect := deselected.foldl
    (fun sel drive => deselectDrive sel drive.device) selection
  modalTargets.foldl (fun sel drive => selectDrive sel drive.device) afterDeselect

theorem mem_deselectDrive {selection : List String} {device d : String} :
    d ∈ deselectDrive selection device ↔ d ∈ selection ∧ d ≠ device := by
  simp [deselectDrive]

theorem mem_selectDrive {selection : List String} {device d : String} :
    d ∈ selectDrive selection device ↔ d ∈ selection ∨ d = device := by
  unfold selectDrive
  by_cases h : device ∈ selection
  · rw [if_pos h]
    constructor
    · exact Or.inl
    · rintro (hd | rfl)
      · exact hd
      · exact h
  · rw [if_neg h]
    simp

theorem mem_foldl_deselect (drives : List DrivelistDrive) :
    ∀ (sel : List String) (d : String),
      d ∈ drives.foldl (fun s drive => deselectDrive s drive.device) sel ↔
        d ∈ sel ∧ ∀ drive ∈ drives, drive.device ≠ d := by
  induction drives with
  | nil => intro sel d; simp
  | cons t ts ih =>
    intro sel d
    rw [List.foldl_cons, ih]
    rw [mem_deselectDrive]
    constructor
    · rintro ⟨⟨hsel, hne⟩, hall⟩
      refine ⟨hsel, ?_⟩
      intro drive hdrive
      rcases List.mem_cons.mp hdrive with rfl | hdrive
      · exact fun hdev => hne hdev.symm
      · exact hall drive hdrive
    · rintro ⟨hsel, hall⟩
      refine ⟨⟨hsel, fun hd => hall t (List.mem_cons_self _ _) hd.symm⟩, ?_⟩
      intro drive hdrive
      exact hall drive (List.mem_cons_of_mem _ hdrive)

theorem mem_foldl_select (drives : List DrivelistDrive) :
    ∀ (sel : List String) (d : String),
      d ∈ drives.foldl (fun s drive => selectDrive s drive.device) sel ↔
        d ∈ sel ∨ ∃ drive ∈ drives, drive.device = d := by
  induction drives with
  | nil => intro sel d; simp
  | cons t ts ih =>
    intro sel d
    rw [List.foldl_cons, ih, mem_selectDrive]
    constructor
    · rintro ((hsel | rfl) | ⟨drive, hdrive, hdev⟩)
      · exact Or.inl hsel
      · exact Or.inr ⟨t, List.mem_cons_self _ _, rfl⟩
      · exact Or.inr ⟨drive, List.mem_cons_of_mem _ hdrive, hdev⟩
    · rintro (hsel | ⟨drive, hdrive, hdev⟩)
      · exact Or.inl (Or.inl hsel)
      · rcases List.mem_cons.mp hdrive with rfl | hdrive
        · exact Or.inl (Or.inr hdev.symm)
        · exact Or.inr ⟨drive, hdrive, hdev⟩

/-- C2: after `selectAllTargets(modalTargets)` runs, a device is selected in
the store if and only if some element of `modalTargets` has that device. -/
theorem claimC2_selectAllTargets_mem_iff
    (selectedDrivesFromState modalTargets : List DrivelistDrive) (d : String) :
    d ∈ selectAllTargets selectedDrivesFromState modalTargets ↔
      ∃ t ∈ modalTargets, t.device = d := by
  unfold selectAllTargets
  rw [mem_foldl_select, mem_foldl_deselect]
  constructor
  · rintro (⟨hsel, hdesel⟩ | htgt)
    · rcases List.mem_map.mp hsel with ⟨s, hs, hdev⟩
      by_cases hany :
          (modalTargets.any (fun modalTarget => modalTarget.device == s.device)) = true
      · rcases List.any_eq_true.mp hany with ⟨t, ht, htdev⟩
        exact ⟨t, ht, (eq_of_beq htdev).trans hdev⟩
      · exfalso
        have hmem : s ∈ selectedDrivesFromState.filter
            (fun drive => !(modalTargets.any
              (fun modalTarget => modalTarget.device == drive.device))) := by
          rw [List.mem_filter]
          exact ⟨hs, by simp [hany]⟩
        exact hdesel s hmem hdev
    · exact htgt
  · rintro ⟨t, ht, htdev⟩
    exact Or.inr ⟨t, ht, htdev⟩

/-! ### Source selector: image selection, warnings, metadata -/

/-- The three source kinds of the SDK (`sourceDestination.File`,
`sourceDestination.BlockDevice`, `sourceDestination.Http`). -/
inductive SourceType where
  | File
  | BlockDevice
  | Http
deriving DecidableEq

/-- A partition entry reported by the partitioninfo library; its fields are
opaque to this layer (only passed through), so it is modelled as a token. -/
structure Partition where
  info : Nat
deriving DecidableEq

/-- The partition table reported by `source.getPartitionTable()`. -/
structure PartitionTable where
  partitions : List Partition
deriving DecidableEq

/-- The `SourceMetadata` shape: the SDK metadata extended with `hasMBR`,
`partitions`, `path` and `extension`; `size` stands for the SDK-provided
fields that this layer leaves untouched. -/
structure SourceMetadata where
  hasMBR : Bool
  partitions : List Partition
  path : String
  extension : Option String
  size : Nat
deriving DecidableEq

/-- The warning slice of the source-selector state:
`{ message: string; title: string | null }`. -/
structure SourceWarning where
  message : String
  title : Option String
deriving DecidableEq

/-- The options handed to `afterSelected`. -/
structure SourceOptions where
  imagePath : String
  sourceType : SourceType
deriving DecidableEq

/-- Modelled from the spec: `messages.warning.looksLikeWindowsImage()` from
`shared/messages` is outside this excerpt; the spec describes a contextual
warning that the image looks like a Windows image.  Its text is irrelevant to
the claims, which inspect the warning titles. -/
def looksLikeWindowsImageMessage : String :=
  "Looks like a Windows image"

/-- Modelled from the spec: `messages.warning.missingPartitionTable()` from
`shared/messages` is outside this excerpt; the spec describes a contextual
warning that the partition table is missing. -/
def missingPartitionTableMessage : String :=
  "Missing partition table"

/-- The result of `selectImage`: the warning written to component state
(`none` when no `setState` happens) and the image passed to
`selectionState.selectImage`. -/
structure SelectImageResult where
  warning : Option SourceWarning
  selectedImage : SourceMetadata
deriving DecidableEq

/-- The warning state written for a Windows-looking image. -/
def windowsImageWarning : SourceWarning :=
  ⟨looksLikeWindowsImageMessage, some "Possible Windows image detected"⟩

/-- The warning state written for an image without a partition table. -/
def missingPartitionTableWarning : SourceWarning :=
  ⟨missingPartitionTableMessage, some "Missing partition table"⟩

/-- Method `SourceSelector.selectImage` from the source selector, parameterized by the
external predicate `supportedFormats.looksLikeWindowsImage`: a Windows-looking
path wins, otherwise a missing MBR warns, otherwise no warning; the image is
selected into the selection state in every branch. -/
def selectImage (looksLikeWindowsImage : String → Bool)
    (image : SourceMetadata) : SelectImageResult :=
  if looksLikeWindowsImage image.path then
    { warning := some windowsImageWarning, selectedImage := image }
  else if !image.hasMBR then
    { warning := some missingPartitionTableWarning, selectedImage := image }
  else
    { warning := none, selectedImage := image }

/-- C3: `selectImage` warns with title `Possible Windows image detected` on a
Windows-looking path; otherwise it warns with title `Missing partition table`
exactly when `hasMBR` is false; with an MBR and a non-Windows path no warning
is set; and the image is selected in every case. -/
theorem claimC3_selectImage_warnings (looksLikeWindowsImage : String → Bool)
    (image : SourceMetadata) :
    (looksLikeWindowsImage image.path = true →
      (selectImage looksLikeWindowsImage image).warning =
        some windowsImageWarning) ∧
    (looksLikeWindowsImage image.path = false →
      ((selectImage looksLikeWindowsImage image).warning =
          some missingPartitionTableWarning ↔ image.hasMBR = false)) ∧
    (looksLikeWindowsImage image.path = false → image.hasMBR = true →
      (selectImage looksLikeWindowsImage image).warning = none) ∧
    (selectImage looksLikeWindowsImage image).selectedImage = image := by
  refine ⟨?_, ?_, ?_, ?_⟩
  · intro hwin
    simp [selectImage, hwin]
  · intro hwin
    cases hmbr : image.hasMBR with
    | false => simp [selectImage, hwin, hmbr]
    | true => simp [selectImage, hwin, hmbr]
  · intro hwin hmbr
    simp [selectImage, hwin, hmbr]
  · unfold selectImage
    by_cases hwin : looksLikeWindowsImage image.path
    · simp [hwin]
    · by_cases hmbr : image.hasMBR <;> simp [hwin, hmbr]

/-- C3 witness: a non-Windows image without an MBR gets the missing partition
table warning and is still selected. -/
theorem claimC3_selectImage_warnings_witness :
    ((selectImage (fun _ => false) ⟨false, [], "img.iso", none, 0⟩).warning =
      some missingPartitionTableWarning) ∧
    (selectImage (fun _ => false) ⟨false, [], "img.iso", none, 0⟩).selectedImage =
      ⟨false, [], "img.iso", none, 0⟩ := by
  have h := claimC3_selectImage_warnings (fun _ => false)
    ⟨false, [], "img.iso", none, 0⟩
  exact ⟨(h.2.1 rfl).mpr rfl, h.2.2.2⟩

/-- Method `SourceSelector.getMetadata` completes the SDK metadata (already cast to the
`SourceMetadata` shape) is completed from the reported partition table and the
source path. -/
def getMetadata (sdkMetadata : SourceMetadata)
    (partitionTable : Option PartitionTable) (sourcePath : String) :
    SourceMetadata :=
  match partitionTable with
  | some table =>
    { sdkMetadata with hasMBR := true, partitions := table.partitions, path := sourcePath }
  | none => { sdkMetadata with hasMBR := false, path := sourcePath }

/-- C6: `getMetadata` sets `hasMBR` to whether a partition table was reported,
copies the reported partitions when there is one, and always sets `path` to
the source path. -/
theorem claimC6_getMetadata_shape (sdkMetadata : SourceMetadata)
    (partitionTable : Option PartitionTable) (sourcePath : String) :
    (∀ table, partitionTable = some table →
      (getMetadata sdkMetadata partitionTable sourcePath).hasMBR = true ∧
      (getMetadata sdkMetadata partitionTable sourcePath).partitions =
        table.partitions) ∧
    (partitionTable = none →
      (getMetadata sdkMetadata partitionTable sourcePath).hasMBR = false) ∧
    (getMetadata sdkMetadata partitionTable sourcePath).path = sourcePath := by
  refine ⟨?_, ?_, ?_⟩
  · rintro table rfl
    exact ⟨rfl, rfl⟩
  · rintro rfl
    rfl
  · cases partitionTable <;> rfl

/-- C6 witness: a reported single-partition table yields `hasMBR`, the
reported partitions and the source path. -/
theorem claimC6_getMetadata_shape_witness :
    (getMetadata ⟨false, [], "", none, 4096⟩ (some ⟨[⟨1⟩]⟩) "disk.img").hasMBR = true ∧
    (getMetadata ⟨false, [], "", none, 4096⟩ (some ⟨[⟨1⟩]⟩) "disk.img").partitions = [⟨1⟩] ∧
    (getMetadata ⟨false, [], "", none, 4096⟩ (some ⟨[⟨1⟩]⟩) "disk.img").path = "disk.img" := by
  have h := claimC6_getMetadata_shape ⟨false, [], "", none, 4096⟩ (some ⟨[⟨1⟩]⟩) "disk.img"
  exact ⟨(h.1 _ rfl).1, (h.1 _ rfl).2, h.2.2⟩

/-- Models lodash `_.startsWith(string, target)`. -/
def lodashStartsWith (s target : String) : Bool :=
  target.data.isPrefixOf s.data

/-- The classification made by `SourceSelector.onSelectImage` for a path
arriving on the `select-image` IPC channel. -/
def onSelectImageSourceType (imagePath : String) : SourceType :=
  if lodashStartsWith imagePath "https://" || lodashStartsWith imagePath "http://" then
    SourceType.Http
  else
    SourceType.File

/-- C10: `onSelectImage` classifies a path as an Http source exactly when it
starts with `https://` or `http://`, and as a File source otherwise. -/
theorem claimC10_onSelectImage_classification (imagePath : String) :
    (onSelectImageSourceType imagePath = SourceType.Http ↔
      (lodashStartsWith imagePath "https://" = true ∨
        lodashStartsWith imagePath "http://" = true)) ∧
    (onSelectImageSourceType imagePath = SourceType.File ↔
      ¬(lodashStartsWith imagePath "https://" = true ∨
        lodashStartsWith imagePath "http://" = true)) := by
  unfold onSelectImageSourceType
  by_cases h : (lodashStartsWith imagePath "https://" ||
      lodashStartsWith imagePath "http://") = true
  · rw [if_pos h]
    simp only [Bool.or_eq_true] at h
    constructor
    · exact ⟨fun _ => h, fun _ => rfl⟩
    · exact ⟨fun hf => (nomatch hf), fun hn => absurd h hn⟩
  · rw [if_neg h]
    simp only [Bool.or_eq_true] at h
    constructor
    · exact ⟨fun hf => (nomatch hf), fun hh => absurd hh h⟩
    · exact ⟨fun _ => h, fun _ => rfl⟩

/-- C10 witness: an https URL is classified Http and a plain file path is
classified File. -/
theorem claimC10_onSelectImage_classification_witness :
    onSelectImageSourceType "https://example.com/a.img" = SourceType.Http ∧
    onSelectImageSourceType "/home/user/a.img" = SourceType.File :=
  ⟨(claimC10_onSelectImage_classification "https://example.com/a.img").1.mpr
      (Or.inl (by decide)),
    (claimC10_onSelectImage_classification "/home/user/a.img").2.mpr
      (by decide)⟩

/-! ### `selectImageByPath` -/

/-- The combined outcome of the SDK calls made on the success path of
`selectImageByPath` (`getInnerSource`, `getMetadata`, `getPartitionTable`):
either the raw metadata and reported partition table, or a thrown error. -/
inductive SdkOutcome where
  | opened (metadata : SourceMetadata) (partitionTable : Option PartitionTable)
  | threw (message : String)

/-- The observable outcome of one `selectImageByPath` call: the title of the
user error dialog if one was shown, the warning and image written to the
selection state if any, and the options passed to `afterSelected` if it was
invoked. -/
structure SelectByPathResult where
  errorTitle : Option String
  warning : Option SourceWarning
  selectedImage : Option SourceMetadata
  afterSelectedWith : Option SourceOptions
deriving DecidableEq

/-- Method `SourceSelector.selectImageByPath`, parameterized by the external
collaborators: `replaceWindowsNetworkDriveLetter` from `os/windows-network-drives`
(`none` models a thrown error, which the source catches leaving the path
unchanged), the `looksLikeWindowsImage` predicate, node `path.extname`, and the
SDK (`sdk`, applied to the source type and effective path).  A non-File source
whose path starts with neither `https://` nor `http://` shows the
`Unsupported protocol` user error and returns before touching the selection
state; otherwise the metadata is completed, the image selected, and
`afterSelected` invoked; an SDK error shows the `Error opening image` dialog. -/
def selectImageByPath (rwndl : String → Option String)
    (looksLikeWindowsImage : String → Bool) (extname : String → String)
    (sdk : SourceType → String → SdkOutcome)
    (options : SourceOptions) : SelectByPathResult :=
  let imagePath := (rwndl options.imagePath).getD options.imagePath
  if options.sourceType ≠ SourceType.File ∧
      ¬lodashStartsWith imagePath "https://" = true ∧
      ¬lodashStartsWith imagePath "http://" = true then
    { errorTitle := some "Unsupported protocol", warning := none,
      selectedImage := none, afterSelectedWith := none }
  else
    match sdk options.sourceType imagePath with
    | SdkOutcome.opened sdkMetadata partitionTable =>
      let metadata := getMetadata sdkMetadata partitionTable imagePath
      let metadata :=
        { metadata with extension := some ((extname imagePath).drop 1) }
      let result := selectImage looksLikeWindowsImage metadata
      { errorTitle := none, warning := result.warning,
        selectedImage := some result.selectedImage,
        afterSelectedWith := some ⟨imagePath, options.sourceType⟩ }
    | SdkOutcome.threw _ =>
      { errorTitle := some "Error opening image", warning := none,
        selectedImage := none, afterSelectedWith := none }

/-- C4: calling `selectImageByPath` with an Http source on a path that starts
with neither `https://` nor `http://` (and whose network-drive-letter
replacement cannot introduce such a prefix, which the real replacement never
does) shows the `Unsupported protocol` error, selects nothing and never calls
`afterSelected`. -/
theorem claimC4_selectImageByPath_unsupported_protocol
    (rwndl : String → Option String) (looksLikeWindowsImage : String → Bool)
    (extname : String → String) (sdk : SourceType → String → SdkOutcome)
    (options : SourceOptions)
    (htype : options.sourceType = SourceType.Http)
    (hs : lodashStartsWith options.imagePath "https://" = false)
    (hp : lodashStartsWith options.imagePath "http://" = false)
    (hrw : ∀ q, rwndl options.imagePath = some q →
      lodashStartsWith q "https://" = false ∧ lodashStartsWith q "http://" = false) :
    selectImageByPath rwndl looksLikeWindowsImage extname sdk options =
      { errorTitle := some "Unsupported protocol", warning := none,
        selectedImage := none, afterSelectedWith := none } := by
  have heff : lodashStartsWith ((rwndl options.imagePath).getD options.imagePath)
        "https://" = false ∧
      lodashStartsWith ((rwndl options.imagePath).getD options.imagePath)
        "http://" = false := by
    cases hq : rwndl options.imagePath with
    | none => exact ⟨hs, hp⟩
    | some q => exact hrw q hq
  unfold selectImageByPath
  rw [if_pos]
  refine ⟨?_, ?_, ?_⟩
  · rw [htype]
    intro hcontr
    exact SourceType.noConfusion hcontr
  · simp [heff.1]
  · simp [heff.2]

/-- C4 witness: an Http selection of an ftp URL is rejected with the
`Unsupported protocol` dialog and no selection change. -/
theorem claimC4_selectImageByPath_unsupported_protocol_witness :
    selectImageByPath (fun _ => none) (fun _ => false) (fun _ => "")
        (fun _ _ => SdkOutcome.threw "unreached")
        ⟨"ftp://example.com/a.img", SourceType.Http⟩ =
      { errorTitle := some "Unsupported protocol", warning := none,
        selectedImage := none, afterSelectedWith := none } :=
  claimC4_selectImageByPath_unsupported_protocol (fun _ => none) (fun _ => false)
    (fun _ => "") (fun _ _ => SdkOutcome.threw "unreached")
    ⟨"ftp://example.com/a.img", SourceType.Http⟩ rfl (by decide) (by decide)
    (fun q hq => nomatch hq)

/-! ### Settings dialog: `toggleSetting` -/

/-- JavaScript boolean negation `!value` applied to a dictionary lookup that
may be `undefined` (`none`): `!undefined` is `true`. -/
def jsNot (value : Option Bool) : Bool :=
  match value with
  | some b => !b
  | none => true

/-- The observable outcome of one `toggleSetting` call: the key/value pair
written to the settings store by `settings.set`, and the local component
settings state after `setCurrentSettings`. -/
structure ToggleSettingResult where
  storeWrite : String × Bool
  localSettings : String → Option Bool

/-- Function `toggleSetting` from the settings modal: read the current value, write its
negation to the settings store, and update the local state with the spread
`{ ...currentSettings, [setting]: !value }`. -/
def toggleSetting (currentSettings : String → Option Bool)
    (setting : String) : ToggleSettingResult :=
  let value := currentSettings setting
  { storeWrite := (setting, jsNot value),
    localSettings := fun key =>
      if key = setting then some (jsNot value) else currentSettings key }

/-- C7: for a setting present with boolean value `b`, `toggleSetting` writes
exactly `!b` to the settings store, the local state afterwards holds `!b` at
that key, and every other key is unchanged. -/
theorem claimC7_toggleSetting_negates (currentSettings : String → Option Bool)
    (setting : String) (b : Bool) (hb : currentSettings setting = some b) :
    (toggleSetting currentSettings setting).storeWrite = (setting, !b) ∧
    (toggleSetting currentSettings setting).localSettings setting = some (!b) ∧
    ∀ key, key ≠ setting →
      (toggleSetting currentSettings setting).localSettings key =
        currentSettings key := by
  refine ⟨?_, ?_, ?_⟩
  · simp [toggleSetting, hb, jsNot]
  · simp [toggleSetting, hb, jsNot]
  · intro key hkey
    simp [toggleSetting, if_neg hkey]

/-- C7 witness: toggling a `true` setting writes `false` and leaves an
unrelated key untouched. -/
theorem claimC7_toggleSetting_negates_witness :
    (toggleSetting
        (fun k => if k = "validateWriteOnSuccess" then some true else none)
        "validateWriteOnSuccess").storeWrite = ("validateWriteOnSuccess", false) ∧
    (toggleSetting
        (fun k => if k = "validateWriteOnSuccess" then some true else none)
        "validateWriteOnSuccess").localSettings "errorReporting" = none := by
  have h := claimC7_toggleSetting_negates
    (fun k => if k = "validateWriteOnSuccess" then some true else none)
    "validateWriteOnSuccess" true (by simp)
  exact ⟨h.1, (h.2.2 "errorReporting" (by decide)).trans (by simp)⟩

end Etcher
